import Mathlib

/-!
# Verification of the LOOPY_MicLooper audio core

Shallow embedding of the repository's signal-processing core
(`DelayEffect.cpp` / `DelayEffect.h`, `lfo.cpp`, `render.cpp`) and proofs of
the specified properties.

Modelling conventions:
* C `float`/`double` arithmetic is modelled by exact rational arithmetic
  over `ℚ`; decimal literals of the source become the corresponding
  rationals.  The claims under study are structural / bound claims that do
  not depend on rounding of individual operations.
* C unsigned/int index arithmetic is modelled on `ℕ` (with explicit wrap
  where the source can wrap, see `usub1`).
* Calls into libm (`sin`, `cos`, `expf`) made by `init_lfo` are modelled as
  explicit parameters carrying the value the library returned; theorems
  constrain them by their mathematical ranges.  `M_PI` / `M_E` are the
  concrete double-precision constants of the platform.
* Buffers (`std::vector<float>`, C arrays) are modelled as total functions
  `ℕ → ℚ`; all reads proved about happen at indices shown to be in range.
-/

namespace Loopy

/-! ## DelayEffect (DelayEffect.h / DelayEffect.cpp) -/

/-- Function `clampValue` from DelayEffect.h: clamp `value` into `[minVal, maxVal]`. -/
def clampValue (value minVal maxVal : ℚ) : ℚ :=
  if value < minVal then minVal
  else if value > maxVal then maxVal
  else value

/-- C `unsigned int` subtraction by one (`bufferSize - 1` in
`DelayEffect::setDelayTime`): wraps to `2^32 - 1` when the operand is `0`. -/
def usub1 (n : ℕ) : ℕ := if n = 0 then 2 ^ 32 - 1 else n - 1

/-- The C cast `(unsigned int)x` applied to a floating value, as it appears in
`DelayEffect::setDelayTime`: truncation toward zero for nonnegative values.
For negative values the ISO C++ conversion is undefined; the target's
conversion saturates at zero, which is what `Int.toNat` yields here. -/
def floatToUInt (x : ℚ) : ℕ := (⌊x⌋).toNat

/-- Truncation toward zero, the C cast `(int)x` of a floating value. -/
def truncQ (x : ℚ) : ℤ := if 0 ≤ x then ⌊x⌋ else -⌊-x⌋

/-- The combined effect of the two wrap loops in `DelayEffect::processSample`
(`while(desiredRead < 0) desiredRead += bufferSize;` followed by
`while(desiredRead >= bufferSize) desiredRead -= bufferSize;`): for
`cap > 0` they compute the representative of `x` modulo `cap` in
`[0, cap)`, i.e. `x - cap·⌊x/cap⌋`. -/
def wrapQ (x : ℚ) (cap : ℕ) : ℚ := x - (cap : ℚ) * ⌊x / (cap : ℚ)⌋

/-- State of the `DelayEffect` class (fields of DelayEffect.h). -/
structure DelayState where
  sampleRate : ℕ
  bufferSize : ℕ
  writePointer : ℕ
  currentDelayTimeInSamples : ℚ
  targetDelayTimeInSamples : ℚ
  timeSmoothingFactor : ℚ
  feedback : ℚ
  mix : ℚ
  delayBuffer : ℕ → ℚ

/-- Method `DelayEffect::setDelayTime`:
`samples = (unsigned int)(delayTimeSec * sampleRate);
 samples = std::min(samples, bufferSize - 1);
 targetDelayTimeInSamples = (float)samples;`. -/
def DelayState.setDelayTime (s : DelayState) (delayTimeSec : ℚ) : DelayState :=
  let samples : ℕ := floatToUInt (delayTimeSec * (s.sampleRate : ℚ))
  let samples : ℕ := min samples (usub1 s.bufferSize)
  { s with targetDelayTimeInSamples := (samples : ℚ) }

/-- Method `DelayEffect::setFeedback`. -/
def DelayState.setFeedback (s : DelayState) (feedbackAmount : ℚ) : DelayState :=
  { s with feedback := clampValue feedbackAmount 0 1 }

/-- Method `DelayEffect::setMix`. -/
def DelayState.setMix (s : DelayState) (mixAmount : ℚ) : DelayState :=
  { s with mix := clampValue mixAmount 0 1 }

/-- The `DelayEffect` constructor: member initialisers, zero-filled buffer of
`bufSize` slots, then `setDelayTime`, current := target, `setFeedback`,
`setMix(0.5)`.  It performs no check whatsoever on `bufSize`. -/
def mkDelayEffect (sr : ℕ) (delayTimeSec feedbackAmount : ℚ) (bufSize : ℕ) :
    DelayState :=
  let s : DelayState :=
    { sampleRate := sr
      bufferSize := bufSize
      writePointer := 0
      currentDelayTimeInSamples := 0
      targetDelayTimeInSamples := 0
      timeSmoothingFactor := 1 / 100
      feedback := 1 / 2
      mix := 1 / 2
      delayBuffer := fun _ => 0 }
  let s := s.setDelayTime delayTimeSec
  let s := { s with currentDelayTimeInSamples := s.targetDelayTimeInSamples }
  let s := s.setFeedback feedbackAmount
  s.setMix (1 / 2)

/-- The smoothed delay computed at the top of `processSample`:
`currentDelayTimeInSamples + timeSmoothingFactor * diff`. -/
def DelayState.smoothedDelay (s : DelayState) : ℚ :=
  s.currentDelayTimeInSamples +
    s.timeSmoothingFactor * (s.targetDelayTimeInSamples - s.currentDelayTimeInSamples)

/-- The ring-buffer read position of `processSample`:
`writePointer - currentDelay` (after smoothing), wrapped into
`[0, bufferSize)` by the two while loops. -/
def DelayState.readPosition (s : DelayState) : ℚ :=
  wrapQ ((s.writePointer : ℚ) - s.smoothedDelay) s.bufferSize

/-- Method `DelayEffect::processSample`, line for line.  The `(int)std::floor`
cast lands on a nonnegative value (the read position is in
`[0, bufferSize)` whenever `bufferSize > 0`), hence `Int.toNat` of the
floor. -/
def DelayState.processSample (s : DelayState) (inputSample : ℚ) :
    ℚ × DelayState :=
  let current := s.smoothedDelay
  let desiredRead := s.readPosition
  let floorPos : ℕ := (⌊desiredRead⌋).toNat
  let frac : ℚ := desiredRead - (⌊desiredRead⌋ : ℚ)
  let nextPos : ℕ := (floorPos + 1) % s.bufferSize
  let delayedSample := (1 - frac) * s.delayBuffer floorPos + frac * s.delayBuffer nextPos
  let output := (1 - s.mix) * inputSample + s.mix * delayedSample
  (output,
    { s with
      currentDelayTimeInSamples := current
      delayBuffer :=
        Function.update s.delayBuffer s.writePointer
          (inputSample + delayedSample * s.feedback)
      writePointer := (s.writePointer + 1) % s.bufferSize })

/-! ### Spec-side description of `processSample` (claim C1)

The following definition is written from the specification's six steps, to
be compared with `DelayState.processSample` above. -/

/-- Spec-side restatement of `processSample`, following the six steps of the
specification: (1) smooth the delay; (2) wrap the read position; (3) linear
interpolation between the two bracketing slots, the second index wrapping at
capacity; (4) output mixes dry and delayed; (5) write input + delayed·feedback
at the write cursor; (6) advance the write cursor modulo capacity; nothing
else changes. -/
def processSampleSpec (s : DelayState) (input : ℚ) : ℚ × DelayState :=
  let currentDelay := s.currentDelayTimeInSamples +
    s.timeSmoothingFactor * (s.targetDelayTimeInSamples - s.currentDelayTimeInSamples)
  let pos := wrapQ ((s.writePointer : ℚ) - currentDelay) s.bufferSize
  let frac := pos - (⌊pos⌋ : ℚ)
  let delayed := (1 - frac) * s.delayBuffer (⌊pos⌋).toNat +
    frac * s.delayBuffer (((⌊pos⌋).toNat + 1) % s.bufferSize)
  ((1 - s.mix) * input + s.mix * delayed,
    { s with
      currentDelayTimeInSamples := currentDelay
      delayBuffer := Function.update s.delayBuffer s.writePointer
        (input + delayed * s.feedback)
      writePointer := (s.writePointer + 1) % s.bufferSize })

/-- The full conclusion of claim C1, bundled: `processSample` performs
exactly the six specified steps (stated as equality with the spec-side
description `processSampleSpec`), its read position is wrapped into
`[0, capacity)`, and no field other than the smoothed delay, the buffer
slot at the write cursor, and the write cursor changes. -/
def C1Statement (s : DelayState) (input : ℚ) : Prop :=
  s.processSample input = processSampleSpec s input ∧
  0 ≤ s.readPosition ∧ s.readPosition < (s.bufferSize : ℚ) ∧
  (s.processSample input).2.targetDelayTimeInSamples = s.targetDelayTimeInSamples ∧
  (s.processSample input).2.timeSmoothingFactor = s.timeSmoothingFactor ∧
  (s.processSample input).2.feedback = s.feedback ∧
  (s.processSample input).2.mix = s.mix ∧
  (s.processSample input).2.sampleRate = s.sampleRate ∧
  (s.processSample input).2.bufferSize = s.bufferSize

/-- The conclusion of the amended claim C2: `setDelayTime` stores
`min(trunc(seconds·sampleRate), capacity − 1)` as the new target (an integer
number of samples; a negative product saturates to zero), leaves the
smoothed (current) delay — and every other field — unchanged, and the read
position subsequently computed by `processSample` lies in `[0, capacity)`. -/
def C2Statement (s : DelayState) (sec : ℚ) : Prop :=
  (s.setDelayTime sec).targetDelayTimeInSamples =
    ((min (floatToUInt (sec * (s.sampleRate : ℚ))) (s.bufferSize - 1) : ℕ) : ℚ) ∧
  (s.setDelayTime sec).currentDelayTimeInSamples = s.currentDelayTimeInSamples ∧
  (s.setDelayTime sec).bufferSize = s.bufferSize ∧
  (s.setDelayTime sec).writePointer = s.writePointer ∧
  (s.setDelayTime sec).delayBuffer = s.delayBuffer ∧
  0 ≤ (s.setDelayTime sec).readPosition ∧
  (s.setDelayTime sec).readPosition < ((s.setDelayTime sec).bufferSize : ℚ)

/-- A concrete, fully explicit `DelayState` used to instantiate theorems. -/
def delayStateEx : DelayState :=
  { sampleRate := 10
    bufferSize := 4
    writePointer := 1
    currentDelayTimeInSamples := 2
    targetDelayTimeInSamples := 3
    timeSmoothingFactor := 1 / 2
    feedback := 1 / 2
    mix := 1 / 2
    delayBuffer := fun _ => 0 }

/-- A second concrete `DelayState` (capacity 100, sample rate 10). -/
def delayStateEx2 : DelayState :=
  { sampleRate := 10
    bufferSize := 100
    writePointer := 0
    currentDelayTimeInSamples := 0
    targetDelayTimeInSamples := 0
    timeSmoothingFactor := 1 / 100
    feedback := 0
    mix := 0
    delayBuffer := fun _ => 0 }

/-! ## LFO bank (lfo.cpp)

`lfo.h` is not part of the sources; the struct fields and the enum of wave
shapes are reconstructed from their uses in `lfo.cpp`.  The enum values are
immaterial to every claim (only their distinctness and the `switch` arms
matter); `INT_TRI = 0` is fixed by `init_lfo`'s comment `// default to
integrated triangle`, the rest follow declaration order. -/

/-- The double-precision value of `M_PI` (exact rational of the IEEE-754
double closest to π). -/
def M_PI_Q : ℚ := 884279719003555 / 281474976710656

/-- The double-precision value of `M_E` (exact rational of the IEEE-754
double closest to e). -/
def M_E_Q : ℚ := 6121026514868073 / 2251799813685248

/-- Modelled from the spec: wave-shape enum constant of the missing `lfo.h`
(integrated triangle). -/
def INT_TRI : ℕ := 0

/-- Modelled from the spec: wave-shape enum constant (triangle). -/
def TRI : ℕ := 1

/-- Modelled from the spec: wave-shape enum constant (sine). -/
def SINE : ℕ := 2

/-- Modelled from the spec: wave-shape enum constant (square). -/
def SQUARE : ℕ := 3

/-- Modelled from the spec: wave-shape enum constant (exponential). -/
def EXP : ℕ := 4

/-- Modelled from the spec: wave-shape enum constant (RC relaxation). -/
def RELAX : ℕ := 5

/-- Modelled from the spec: wave-shape enum constant (hyper). -/
def HYPER : ℕ := 6

/-- Modelled from the spec: wave-shape enum constant (hyper-sine). -/
def HYPER_SINE : ℕ := 7

/-- The `lfoparams` struct: state variables of every oscillator variant, as
initialised by `init_lfo` and used by the `run_*` functions. -/
structure lfoparams where
  startup_delay : ℤ
  k_ : ℚ
  k : ℚ
  nk_ : ℚ
  nk : ℚ
  psign_ : ℚ
  psign : ℚ
  nsign_ : ℚ
  nsign : ℚ
  sign_ : ℚ
  sign : ℚ
  lfo : ℚ
  x : ℚ
  ktri : ℚ
  trisign : ℚ
  trilfo : ℚ
  ksin : ℚ
  sin_part : ℚ
  cos_part : ℚ
  rlx_k : ℚ
  rlx_ik : ℚ
  rlx_sign : ℚ
  rlx_max : ℚ
  rlx_min : ℚ
  rlx_lfo : ℚ
  exp_ik : ℚ
  exp_k : ℚ
  exp_x : ℚ
  exp_min : ℚ
  exp_max : ℚ
  exp_sv : ℚ
  current_rate : ℚ
  lfo_type : ℕ

/-- Function `init_lfo`, line for line.  The libm calls it makes are passed in as
arguments carrying the value the library returned: `sinv`/`cosv` stand for
`sin(2π·phase/360)` / `cos(2π·phase/360)`, `kRlx` for `expf(-2·fosc/fs)`,
and `kExp` for `expf(-2·1.3133·fosc/fs)`. -/
def init_lfo (fosc fs phase sinv cosv kRlx kExp : ℚ) : lfoparams :=
  let ts := 1 / fs
  let frq := 2 * fosc
  let t := 4 * frq * frq * ts * ts
  let p0 := phase / 180
  let p1 := if p0 < 0 then -p0 else p0
  let p2 := p1 / frq
  let p3 := p2 * fs
  let ptri0 := frq * phase / (360 * fosc)
  let ptri1 := if ptri0 ≥ 1 then ptri0 - 1 else ptri0
  let trisign1 := if ptri0 ≥ 1 then (-1 : ℚ) else 1
  let ptri2 := if ptri1 < 0 then 0 else ptri1
  let trisign2 := if ptri1 < 0 then (1 : ℚ) else trisign1
  let ie := 1 / (1 - 1 / M_E_Q)
  { startup_delay := truncQ p3
    k_ := 2 * ts * frq
    k := 2 * ts * frq
    nk_ := -(2 * ts * frq)
    nk := -(2 * ts * frq)
    psign_ := t
    psign := t
    nsign_ := -t
    nsign := -t
    sign_ := t
    sign := t
    lfo := 0
    x := 0
    ktri := frq / fs
    trisign := trisign2
    trilfo := ptri2
    ksin := M_PI_Q * frq / fs
    sin_part := sinv
    cos_part := cosv
    rlx_k := kRlx
    rlx_ik := 1 - kRlx
    rlx_sign := ie
    rlx_max := ie
    rlx_min := 1 - ie
    rlx_lfo := 0
    exp_ik := kExp
    exp_k := 1 / kExp
    exp_x := kExp
    exp_min := 1 / M_E_Q
    exp_max := 1 + 1 / M_E_Q
    exp_sv := 1 / M_E_Q
    current_rate := fosc
    lfo_type := 0 }

/-- Function `run_integrated_triangle_lfo`: startup delay, triangular slope update
with sign flips at the `k`/`nk` bounds, integration into `lfo` clamped to
`[0, 1]`. -/
def run_integrated_triangle_lfo (lp : lfoparams) : ℚ × lfoparams :=
  if lp.startup_delay > 0 then
    (0, { lp with startup_delay := lp.startup_delay - 1, lfo := 0 })
  else
    let x0 := lp.x + lp.sign
    let lp1 :=
      if x0 ≥ lp.k then
        { lp with sign := lp.nsign_, x := lp.k_, k := lp.k_, nk := lp.nk_ }
      else if x0 ≤ lp.nk then
        { lp with sign := lp.psign_, x := lp.nk_, k := lp.k_, nk := lp.nk_ }
      else { lp with x := x0 }
    let lfo1 := lp1.lfo + lp1.x
    let lfo2 := if lfo1 > 1 then 1 else lfo1
    let lfo3 := if lfo2 < 0 then 0 else lfo2
    (lfo3, { lp1 with lfo := lfo3 })

/-- Function `run_triangle_lfo`: `trilfo += ktri·trisign`, the sign flipping at the
`1` and `0` boundaries (two independent `if`s, as in the source). -/
def run_triangle_lfo (lp : lfoparams) : ℚ × lfoparams :=
  let trilfo := lp.trilfo + lp.ktri * lp.trisign
  let s1 := if trilfo ≥ 1 then (-1 : ℚ) else lp.trisign
  let s2 := if trilfo ≤ 0 then (1 : ℚ) else s1
  (trilfo, { lp with trilfo := trilfo, trisign := s2 })

/-- Function `run_sine_lfo`: the two-state coupled recurrence, output
`0.5·(1 + cos_part)`. -/
def run_sine_lfo (lp : lfoparams) : ℚ × lfoparams :=
  let sin1 := lp.sin_part + lp.cos_part * lp.ksin
  let cos1 := lp.cos_part - sin1 * lp.ksin
  (1 / 2 * (1 + cos1), { lp with sin_part := sin1, cos_part := cos1 })

/-- Function `run_rlx_lfo`: first-order filter toward `rlx_sign`, which toggles at
the `1` / `0` thresholds. -/
def run_rlx_lfo (lp : lfoparams) : ℚ × lfoparams :=
  let v := lp.rlx_sign * lp.rlx_ik + lp.rlx_k * lp.rlx_lfo
  let s :=
    if v ≥ 1 then lp.rlx_min
    else if v ≤ 0 then lp.rlx_max
    else lp.rlx_sign
  (v, { lp with rlx_lfo := v, rlx_sign := s })

/-- Function `run_exp_lfo`: multiply `exp_sv` by the active coefficient, toggling it
at the `exp_max` / `exp_min` bounds; output offset by `exp_min`. -/
def run_exp_lfo (lp : lfoparams) : ℚ × lfoparams :=
  let sv := lp.exp_sv * lp.exp_x
  let x :=
    if sv ≥ lp.exp_max then lp.exp_ik
    else if sv ≤ lp.exp_min then lp.exp_k
    else lp.exp_x
  (sv - lp.exp_min, { lp with exp_sv := sv, exp_x := x })

/-- The soft-saturation (rational clipping) curve of the SQUARE arm of
`run_lfo`: `x · 1/(1 + 30x)` for positive `x`, `x · 1/(1 − 30x)`
otherwise. -/
def softClip (x : ℚ) : ℚ :=
  if x > 0 then x * (1 / (1 + 30 * x)) else x * (1 / (1 - 30 * x))

/-- Function `run_lfo`: dispatch on `lfo_type` exactly as the `switch` in the
source; the SQUARE arm post-processes the sine output, the HYPER arms fold
the integrated-triangle / sine output through `1 − |out − 0.5|`, and any
unknown type falls back to the integrated triangle. -/
def run_lfo (lp : lfoparams) : ℚ × lfoparams :=
  if lp.lfo_type = INT_TRI then run_integrated_triangle_lfo lp
  else if lp.lfo_type = TRI then run_triangle_lfo lp
  else if lp.lfo_type = SINE then run_sine_lfo lp
  else if lp.lfo_type = SQUARE then
    let r := run_sine_lfo lp
    let o1 := r.1 - 1 / 2
    let o2 := softClip o1
    (o2 * 16 + 1 / 2, r.2)
  else if lp.lfo_type = EXP then run_exp_lfo lp
  else if lp.lfo_type = RELAX then run_rlx_lfo lp
  else if lp.lfo_type = HYPER then
    let r := run_integrated_triangle_lfo lp
    (1 - |r.1 - 1 / 2|, r.2)
  else if lp.lfo_type = HYPER_SINE then
    let r := run_sine_lfo lp
    (1 - |r.1 - 1 / 2|, r.2)
  else run_integrated_triangle_lfo lp

/-- Function `set_lfo_type`. -/
def set_lfo_type (lp : lfoparams) (t : ℕ) : lfoparams := { lp with lfo_type := t }

/-- The state part of one `run_lfo` call. -/
def lfoStep (lp : lfoparams) : lfoparams := (run_lfo lp).2

/-- The per-variant state blocks of the bank (the recurrence variables the
`run_*` functions mutate). -/
inductive LfoBlock
  | iTri
  | tri
  | sine
  | exp
  | rlx
deriving DecidableEq

/-- The recurrence variables belonging to a state block, as a list of
rationals (the startup counter cast into `ℚ`). -/
def blockState : LfoBlock → lfoparams → List ℚ
  | .iTri, lp => [lp.x, lp.sign, lp.k, lp.nk, lp.lfo, (lp.startup_delay : ℚ)]
  | .tri, lp => [lp.trilfo, lp.trisign]
  | .sine, lp => [lp.sin_part, lp.cos_part]
  | .exp, lp => [lp.exp_sv, lp.exp_x]
  | .rlx, lp => [lp.rlx_lfo, lp.rlx_sign]

/-- Which state block a wave-shape type drives: the SQUARE and HYPER_SINE
arms advance the sine block, the HYPER arm and every unknown type advance
the integrated-triangle block. -/
def backing (t : ℕ) : LfoBlock :=
  if t = TRI then .tri
  else if t = SINE then .sine
  else if t = SQUARE then .sine
  else if t = EXP then .exp
  else if t = RELAX then .rlx
  else if t = HYPER_SINE then .sine
  else .iTri

/-- The conclusion of the amended claim C3: one `run_lfo` call mutates only
the state block backing the selected type, and switching to a type backed
by a different block, stepping any number of times, and switching back
leaves the previously selected block exactly as it was. -/
def C3Statement (lp : lfoparams) : Prop :=
  (∀ b : LfoBlock, b ≠ backing lp.lfo_type →
      blockState b (lfoStep lp) = blockState b lp) ∧
  (∀ t n, backing t ≠ backing lp.lfo_type →
      blockState (backing lp.lfo_type)
          (set_lfo_type (lfoStep^[n] (set_lfo_type lp t)) lp.lfo_type) =
        blockState (backing lp.lfo_type) lp)

/-- A concrete LFO state: `init_lfo(fosc = 1, fs = 3, phase = 0)` (library
stubs `sin 0 = 0`, `cos 0 = 1`, both `expf` values `1/2`) with the sine
variant selected. -/
def lfoEx : lfoparams := set_lfo_type (init_lfo 1 3 0 0 1 (1 / 2) (1 / 2)) SINE

/-- Inductive invariant of the triangle recurrence: the direction flag is
`±1`, the phase stays within one step of `[0, 1]`, and whenever the phase
has overshot a boundary the direction already points back inside. -/
def triInv (lp : lfoparams) : Prop :=
  (lp.trisign = 1 ∨ lp.trisign = -1) ∧
  -lp.ktri ≤ lp.trilfo ∧ lp.trilfo ≤ 1 + lp.ktri ∧
  (1 < lp.trilfo → lp.trisign = -1) ∧
  (lp.trilfo < 0 → lp.trisign = 1)

/-- Inductive invariant of the relaxation recurrence: the target is one of
the two bound values, the filter output stays within `[rlx_min, rlx_max]`,
and past a threshold the target already points back inside. -/
def rlxInv (lp : lfoparams) : Prop :=
  (lp.rlx_sign = lp.rlx_max ∨ lp.rlx_sign = lp.rlx_min) ∧
  lp.rlx_min ≤ lp.rlx_lfo ∧ lp.rlx_lfo ≤ lp.rlx_max ∧
  (1 < lp.rlx_lfo → lp.rlx_sign = lp.rlx_min) ∧
  (lp.rlx_lfo < 0 → lp.rlx_sign = lp.rlx_max)

/-- Shape of the relaxation coefficients as established by `init_lfo`
(with `rlx_k = expf(-2·fosc/fs) ∈ [0, 1]`). -/
def rlxCoeffOK (lp : lfoparams) : Prop :=
  1 ≤ lp.rlx_max ∧ lp.rlx_min = 1 - lp.rlx_max ∧
  0 ≤ lp.rlx_k ∧ lp.rlx_k ≤ 1 ∧ lp.rlx_ik = 1 - lp.rlx_k

/-- Inductive invariant of the exponential recurrence: the active
coefficient is growth or decay, the value stays within
`[exp_ik·exp_min, exp_max·exp_k]`, and past a bound the active coefficient
already points back inside. -/
def expInv (lp : lfoparams) : Prop :=
  (lp.exp_x = lp.exp_k ∨ lp.exp_x = lp.exp_ik) ∧
  lp.exp_ik * lp.exp_min ≤ lp.exp_sv ∧ lp.exp_sv ≤ lp.exp_max * lp.exp_k ∧
  (lp.exp_max < lp.exp_sv → lp.exp_x = lp.exp_ik) ∧
  (lp.exp_sv < lp.exp_min → lp.exp_x = lp.exp_k)

/-- Shape of the exponential coefficients as established by `init_lfo`
(with `exp_ik = expf(-2·1.3133·fosc/fs) ∈ (0, 1]`). -/
def expCoeffOK (lp : lfoparams) : Prop :=
  0 < lp.exp_ik ∧ lp.exp_ik ≤ 1 ∧ lp.exp_k = 1 / lp.exp_ik ∧
  0 < lp.exp_min ∧ lp.exp_min ≤ lp.exp_max

/-- The quantity conserved exactly by the two-state sine recurrence:
`sin_part² + cos_part² + ksin·sin_part·cos_part`. -/
def sineH (lp : lfoparams) : ℚ :=
  lp.sin_part ^ 2 + lp.cos_part ^ 2 + lp.ksin * lp.sin_part * lp.cos_part

/-- The conclusion of the amended claim C8, at step `n` after
initialisation: the integrated-triangle output is always within `[0, 1]`
(it is clamped); the triangle output is within `[-ktri, 1 + ktri]` (one
step of overshoot before the direction flips); the sine output satisfies
the conserved-ellipse bound
`(2·out − 1)²·(1 − ksin²/4) ≤ sin₀² + cos₀² + ksin·sin₀·cos₀`; the
exponential output is within `[exp_ik·exp_min − exp_min,
exp_max·exp_k − exp_min]`; the relaxation output is within
`[rlx_min, rlx_max] = [1 − ie, ie] ≈ [-0.582, 1.582]`. -/
def C8Statement (fosc fs phase sinv cosv kRlx kExp : ℚ) (n : ℕ) : Prop :=
  let lp0 := init_lfo fosc fs phase sinv cosv kRlx kExp
  let outAt : ℕ → ℚ := fun t => (run_lfo (lfoStep^[n] (set_lfo_type lp0 t))).1
  (0 ≤ outAt INT_TRI ∧ outAt INT_TRI ≤ 1) ∧
  (-lp0.ktri ≤ outAt TRI ∧ outAt TRI ≤ 1 + lp0.ktri) ∧
  (2 * outAt SINE - 1) ^ 2 * (1 - lp0.ksin ^ 2 / 4) ≤ sineH lp0 ∧
  (lp0.exp_ik * lp0.exp_min - lp0.exp_min ≤ outAt EXP ∧
    outAt EXP ≤ lp0.exp_max * lp0.exp_k - lp0.exp_min) ∧
  (lp0.rlx_min ≤ outAt RELAX ∧ outAt RELAX ≤ lp0.rlx_max)

/-! ## Looper / session (render.cpp)

Global state of render.cpp and the per-sample branches of `render`.  The
control-rate knob block (lines 102–142) only feeds the `DelayEffect`
setters and the playback-speed field, all modelled above / as state; the
Bela I/O calls (`audioRead`, `digitalRead`, `digitalWrite`, `analogRead`)
are the out-of-scope wrappers of the spec — button and sample values enter
as arguments, the LED is the `led` field. -/

/-- The free-standing globals of render.cpp (plus the two `static` locals
of `render` and the LED output latch). -/
structure RenderState where
  gAudioBuffer : ℕ → ℚ
  gBufferSize : ℕ
  gWritePointer : ℕ
  gReadPointer : ℕ
  readIndex : ℚ
  gRecording : Bool
  gPlaying : Bool
  gClearedOnce : Bool
  gPlaybackSpeed : ℚ
  localLastButtonState : ℕ
  localLastClearButtonState : ℕ
  led : Bool
  delayEffect : DelayState

/-- Branch (A) of `render`: the record/play toggle on the rising edge of
the record button, with the LED following the recording flag. -/
def toggleBranch (s : RenderState) (buttonState : ℕ) : RenderState :=
  let s1 :=
    if buttonState = 1 ∧ s.localLastButtonState = 0 then
      if s.gRecording then
        { s with gRecording := false, gPlaying := true, led := false }
      else
        { s with gRecording := true, gPlaying := true, led := true }
    else s
  { s1 with localLastButtonState := buttonState }

/-- Branch (B) of `render` (lines 170–190): on the rising edge of the
clear button, if the one-shot guard is clear, zero the buffer, reset both
cursors and the fractional read index, stop recording and playback, switch
the LED off and set the guard; on the falling edge reset the guard; always
latch the last observed button state. -/
def clearBranch (s : RenderState) (clearButtonState : ℕ) : RenderState :=
  let s1 :=
    if clearButtonState = 1 ∧ s.localLastClearButtonState = 0 then
      if s.gClearedOnce = false then
        { s with
          gAudioBuffer := fun _ => 0
          gWritePointer := 0
          gReadPointer := 0
          readIndex := 0
          gRecording := false
          gPlaying := false
          led := false
          gClearedOnce := true }
      else s
    else s
  let s2 :=
    if clearButtonState = 0 ∧ s1.localLastClearButtonState = 1 then
      { s1 with gClearedOnce := false }
    else s1
  { s2 with localLastClearButtonState := clearButtonState }

/-- The overdub write of the recording branch:
`gAudioBuffer[gWritePointer] += x·0.75; gWritePointer = (gWritePointer+1) %
gBufferSize;` — the spec's `LooperBuffer.recordAdd`. -/
def recordAdd (s : RenderState) (x : ℚ) : RenderState :=
  { s with
    gAudioBuffer :=
      Function.update s.gAudioBuffer s.gWritePointer
        (s.gAudioBuffer s.gWritePointer + x * (3 / 4))
    gWritePointer := (s.gWritePointer + 1) % s.gBufferSize }

/-- The recording branch of `render`: when recording, run the input through
the delay effect, monitor it on the output, and overdub it into the loop
buffer. -/
def recordBranch (s : RenderState) (inSample : ℚ) : ℚ × RenderState :=
  if s.gRecording then
    let r := s.delayEffect.processSample inSample
    (r.1, recordAdd { s with delayEffect := r.2 } r.1)
  else (0, s)

/-- The playback branch of `render`: read
`gAudioBuffer[(int)readIndex % gBufferSize]`, then advance `readIndex` by
the playback speed and re-normalize with a single conditional correction —
the spec's `LooperBuffer.playbackRead`.  (`Int.toNat` models the valid
C array read; every state proved about keeps the index in range.) -/
def playBranch (s : RenderState) : ℚ × RenderState :=
  if s.gPlaying then
    let playSample := s.gAudioBuffer ((truncQ s.readIndex % (s.gBufferSize : ℤ)).toNat)
    let r1 := s.readIndex + s.gPlaybackSpeed
    let r2 :=
      if r1 < 0 then r1 + (s.gBufferSize : ℚ)
      else if r1 ≥ (s.gBufferSize : ℚ) then r1 - (s.gBufferSize : ℚ)
      else r1
    (playSample, { s with readIndex := r2 })
  else (0, s)

/-- One pass of the per-sample loop body of `render` (button branches, then
recording, then playback, summing both contributions into the output). -/
def renderStep (s : RenderState) (inSample : ℚ) (buttonState clearButtonState : ℕ) :
    ℚ × RenderState :=
  let s1 := toggleBranch s buttonState
  let s2 := clearBranch s1 clearButtonState
  let r3 := recordBranch s2 inSample
  let r4 := playBranch r3.2
  (r3.1 + r4.1, r4.2)

/-- The state part of one per-sample pass. -/
def renderStepSt (s : RenderState) (inSample : ℚ) (b c : ℕ) : RenderState :=
  (renderStep s inSample b c).2

/-- The conclusion of claim C5: with the clear control held from a released
state, the first sample zeroes the buffer and resets the cursors and sets
the one-shot guard; every further sample while held changes nothing at all
(in particular it does not clear again and does not reset the guard); the
guard resets exactly on release; and a fresh press clears again. -/
def C5Statement (s : RenderState) (i : ℚ) : Prop :=
  (renderStepSt s i 0 1).gAudioBuffer = (fun _ => 0) ∧
  (renderStepSt s i 0 1).gWritePointer = 0 ∧
  (renderStepSt s i 0 1).gReadPointer = 0 ∧
  (renderStepSt s i 0 1).readIndex = 0 ∧
  (renderStepSt s i 0 1).gClearedOnce = true ∧
  (∀ j : ℚ, renderStepSt (renderStepSt s i 0 1) j 0 1 = renderStepSt s i 0 1) ∧
  (∀ j : ℚ, (renderStepSt (renderStepSt s i 0 1) j 0 0).gClearedOnce = false) ∧
  (∀ j j' : ℚ,
    (renderStepSt (renderStepSt (renderStepSt s i 0 1) j 0 0) j' 0 1).gClearedOnce = true ∧
    (renderStepSt (renderStepSt (renderStepSt s i 0 1) j 0 0) j' 0 1).gAudioBuffer =
      (fun _ => 0) ∧
    (renderStepSt (renderStepSt (renderStepSt s i 0 1) j 0 0) j' 0 1).gWritePointer = 0 ∧
    (renderStepSt (renderStepSt (renderStepSt s i 0 1) j 0 0) j' 0 1).gReadPointer = 0)

/-- The conclusion of claim C6: the playback branch returns the buffer
value at `floor(readIndex) mod capacity`, advances the read index by the
playback speed re-normalized into `[0, capacity)` by adding or subtracting
the capacity, and the recording write cursor advances by exactly 1 modulo
capacity. -/
def C6Statement (s : RenderState) : Prop :=
  (playBranch s).1 = s.gAudioBuffer ((⌊s.readIndex⌋).toNat % s.gBufferSize) ∧
  0 ≤ (playBranch s).2.readIndex ∧
  (playBranch s).2.readIndex < (s.gBufferSize : ℚ) ∧
  ((playBranch s).2.readIndex = s.readIndex + s.gPlaybackSpeed ∨
    (playBranch s).2.readIndex = s.readIndex + s.gPlaybackSpeed + (s.gBufferSize : ℚ) ∨
    (playBranch s).2.readIndex = s.readIndex + s.gPlaybackSpeed - (s.gBufferSize : ℚ)) ∧
  (∀ x : ℚ, (recordAdd s x).gWritePointer = (s.gWritePointer + 1) % s.gBufferSize)

/-- The conclusion of claim C7: `recordAdd` adds `sample·0.75` into the
slot at the write cursor (it does not overwrite) and advances the cursor by
1 modulo capacity; and after a full wrap back to the same position a second
`recordAdd c` leaves exactly `2·0.75·c` in the slot that held 0. -/
def C7Statement (s : RenderState) (c : ℚ) (xs : List ℚ) : Prop :=
  (∀ (t : RenderState) (x : ℚ),
    (recordAdd t x).gAudioBuffer t.gWritePointer =
      t.gAudioBuffer t.gWritePointer + x * (3 / 4) ∧
    (recordAdd t x).gWritePointer = (t.gWritePointer + 1) % t.gBufferSize) ∧
  (recordAdd (List.foldl recordAdd (recordAdd s c) xs) c).gAudioBuffer s.gWritePointer =
    2 * (3 / 4) * c

/-- The conclusion of claim C10: on an un-guarded rising edge of the clear
control, the clear branch — besides zeroing the buffer and resetting both
cursors — also stops recording and playback and switches the recording
indicator off. -/
def C10Statement (s : RenderState) : Prop :=
  (clearBranch s 1).gRecording = false ∧
  (clearBranch s 1).gPlaying = false ∧
  (clearBranch s 1).led = false ∧
  (clearBranch s 1).gAudioBuffer = (fun _ => 0) ∧
  (clearBranch s 1).gWritePointer = 0 ∧
  (clearBranch s 1).gReadPointer = 0 ∧
  (clearBranch s 1).readIndex = 0 ∧
  (clearBranch s 1).gClearedOnce = true

/-- A concrete, fully explicit `RenderState` used to instantiate
theorems. -/
def renderStateEx : RenderState :=
  { gAudioBuffer := fun _ => 0
    gBufferSize := 4
    gWritePointer := 1
    gReadPointer := 2
    readIndex := 1 / 2
    gRecording := true
    gPlaying := true
    gClearedOnce := false
    gPlaybackSpeed := 1
    localLastButtonState := 0
    localLastClearButtonState := 0
    led := true
    delayEffect := delayStateEx }

/-! ### Basic facts about the wrap -/

theorem wrapQ_nonneg (x : ℚ) (cap : ℕ) (hcap : 0 < cap) : 0 ≤ wrapQ x cap := by
  have hc : (0 : ℚ) < (cap : ℚ) := by exact_mod_cast hcap
  have h := Int.floor_le (x / (cap : ℚ))
  have := mul_le_mul_of_nonneg_left h (le_of_lt hc)
  have hx : (cap : ℚ) * ((⌊x / (cap : ℚ)⌋ : ℚ)) ≤ (cap : ℚ) * (x / (cap : ℚ)) := this
  have : (cap : ℚ) * (x / (cap : ℚ)) = x := by
    field_simp
  rw [this] at hx
  unfold wrapQ
  linarith

theorem wrapQ_lt (x : ℚ) (cap : ℕ) (hcap : 0 < cap) : wrapQ x cap < cap := by
  have hc : (0 : ℚ) < (cap : ℚ) := by exact_mod_cast hcap
  have h := Int.lt_floor_add_one (x / (cap : ℚ))
  have := mul_lt_mul_of_pos_left h hc
  have hx : (cap : ℚ) * (x / (cap : ℚ)) < (cap : ℚ) * ((⌊x / (cap : ℚ)⌋ : ℚ) + 1) := this
  have hxx : (cap : ℚ) * (x / (cap : ℚ)) = x := by field_simp
  rw [hxx] at hx
  unfold wrapQ
  nlinarith

/-! ### Claim C1 -/

/-- C1: for every internal state with capacity > 0 and every input sample,
`processSample` performs exactly the six specified steps in order — smooth
the delay, wrap the read position into `[0, capacity)`, linearly interpolate
the two bracketing slots (the second wrapping at capacity), mix dry and
delayed into the output, write `input + delayed·feedback` at the write
cursor, advance the write cursor modulo capacity — and changes no other
state. -/
theorem C1_processSample_steps (s : DelayState) (input : ℚ)
    (hcap : 0 < s.bufferSize) : C1Statement s input := by
  exact ⟨rfl, wrapQ_nonneg _ _ hcap, wrapQ_lt _ _ hcap, rfl, rfl, rfl, rfl, rfl, rfl⟩

/-- Witness for C1 at a concrete state and input. -/
theorem C1_processSample_steps_witness :
    0 < delayStateEx.bufferSize ∧ C1Statement delayStateEx 1 :=
  ⟨by decide, C1_processSample_steps delayStateEx 1 (by decide)⟩

/-! ### Claim C2 -/

/-- C2 counterexample: the claim says the stored target equals the
real-valued `clamp(seconds·sampleRate, 0, capacity−1)`; at
`seconds = 0.57`, `sampleRate = 10`, `capacity = 100` the code stores the
truncation `5`, not the clamped value `5.7`. -/
theorem C2_counterexample :
    (delayStateEx2.setDelayTime (57 / 100)).targetDelayTimeInSamples ≠
      clampValue ((57 / 100) * ((delayStateEx2.sampleRate : ℕ) : ℚ)) 0
        ((delayStateEx2.bufferSize : ℚ) - 1) := by
  have h5 : Int.toNat 5 = 5 := rfl
  norm_num [delayStateEx2, DelayState.setDelayTime, clampValue, floatToUInt, usub1, h5]

/-- C2 (amended): `setDelayTime` stores
`min(trunc(seconds·sampleRate), capacity−1)` — the integer truncation of the
requested delay in samples, saturating at 0 from below and clamped to
`capacity−1` from above — leaves the current (smoothed) delay unchanged, and
the read position computed by `processSample` always lies in
`[0, capacity)`. -/
theorem C2_setDelayTime_trunc (s : DelayState) (sec : ℚ)
    (hcap : 0 < s.bufferSize) : C2Statement s sec := by
  refine ⟨?_, rfl, rfl, rfl, rfl, wrapQ_nonneg _ _ hcap, wrapQ_lt _ _ hcap⟩
  have h0 : s.bufferSize ≠ 0 := hcap.ne'
  simp [DelayState.setDelayTime, usub1, h0]

/-- Witness for the amended C2 at a concrete state and delay time. -/
theorem C2_setDelayTime_trunc_witness :
    0 < delayStateEx2.bufferSize ∧ C2Statement delayStateEx2 (57 / 100) :=
  ⟨by decide, C2_setDelayTime_trunc delayStateEx2 (57 / 100) (by decide)⟩

/-! ### Claim C4 -/

/-- C4: contrary to the claim (and to the specification's error-handling
design), constructing the delay line with a capacity of zero is not
rejected: the constructor runs to completion, producing a zero-capacity
state — `bufferSize - 1` wraps to `2^32 − 1` in `setDelayTime`, so the
0.5 s request is stored un-clamped as 22050 — and the next `processSample`
call would evaluate `% 0`.  This theorem evaluates the constructor at the
failing input `DelayEffect(44100, 0.5f, 0.7f, 0)`. -/
theorem C4_zero_capacity_not_rejected :
    (mkDelayEffect 44100 (1 / 2) (7 / 10) 0).bufferSize = 0 ∧
    (mkDelayEffect 44100 (1 / 2) (7 / 10) 0).targetDelayTimeInSamples = 22050 := by
  have h22050 : Int.toNat 22050 = 22050 := rfl
  constructor <;>
    norm_num [mkDelayEffect, DelayState.setDelayTime, DelayState.setFeedback,
      DelayState.setMix, floatToUInt, usub1, clampValue, h22050]

/-! ### Claim C3: which state advances per `run_lfo` call -/

theorem blockState_run_int_tri (lp : lfoparams) (b : LfoBlock) (hb : b ≠ .iTri) :
    blockState b (run_integrated_triangle_lfo lp).2 = blockState b lp := by
  cases b <;>
    first
      | exact absurd rfl hb
      | (simp only [run_integrated_triangle_lfo, blockState]
         split_ifs <;> rfl)

theorem blockState_run_tri (lp : lfoparams) (b : LfoBlock) (hb : b ≠ .tri) :
    blockState b (run_triangle_lfo lp).2 = blockState b lp := by
  cases b <;> first | exact absurd rfl hb | rfl

theorem blockState_run_sine (lp : lfoparams) (b : LfoBlock) (hb : b ≠ .sine) :
    blockState b (run_sine_lfo lp).2 = blockState b lp := by
  cases b <;> first | exact absurd rfl hb | rfl

theorem blockState_run_exp (lp : lfoparams) (b : LfoBlock) (hb : b ≠ .exp) :
    blockState b (run_exp_lfo lp).2 = blockState b lp := by
  cases b <;> first | exact absurd rfl hb | rfl

theorem blockState_run_rlx (lp : lfoparams) (b : LfoBlock) (hb : b ≠ .rlx) :
    blockState b (run_rlx_lfo lp).2 = blockState b lp := by
  cases b <;> first | exact absurd rfl hb | rfl

/-- One `run_lfo` call leaves every block other than the one backing the
current type untouched. -/
theorem blockState_lfoStep (lp : lfoparams) (b : LfoBlock)
    (hb : b ≠ backing lp.lfo_type) : blockState b (lfoStep lp) = blockState b lp := by
  unfold lfoStep run_lfo backing at *
  by_cases h0 : lp.lfo_type = INT_TRI
  · simp only [h0, INT_TRI, TRI, SINE, SQUARE, EXP, RELAX, HYPER_SINE] at hb ⊢
    norm_num at hb ⊢
    exact blockState_run_int_tri lp b hb
  all_goals by_cases h1 : lp.lfo_type = TRI
  case pos =>
    simp only [h0, h1, INT_TRI, TRI, SINE, SQUARE, EXP, RELAX, HYPER_SINE] at hb ⊢
    norm_num at hb ⊢
    exact blockState_run_tri lp b hb
  all_goals by_cases h2 : lp.lfo_type = SINE
  case pos =>
    simp only [h0, h1, h2, INT_TRI, TRI, SINE, SQUARE, EXP, RELAX, HYPER_SINE] at hb ⊢
    norm_num at hb ⊢
    exact blockState_run_sine lp b hb
  all_goals by_cases h3 : lp.lfo_type = SQUARE
  case pos =>
    simp only [h0, h1, h2, h3, INT_TRI, TRI, SINE, SQUARE, EXP, RELAX, HYPER_SINE] at hb ⊢
    norm_num at hb ⊢
    exact blockState_run_sine lp b hb
  all_goals by_cases h4 : lp.lfo_type = EXP
  case pos =>
    simp only [h0, h1, h2, h3, h4, INT_TRI, TRI, SINE, SQUARE, EXP, RELAX, HYPER_SINE] at hb ⊢
    norm_num at hb ⊢
    exact blockState_run_exp lp b hb
  all_goals by_cases h5 : lp.lfo_type = RELAX
  case pos =>
    simp only [h0, h1, h2, h3, h4, h5, INT_TRI, TRI, SINE, SQUARE, EXP, RELAX, HYPER_SINE] at hb ⊢
    norm_num at hb ⊢
    exact blockState_run_rlx lp b hb
  all_goals by_cases h6 : lp.lfo_type = HYPER
  case pos =>
    simp only [h0, h1, h2, h3, h4, h5, h6, INT_TRI, TRI, SINE, SQUARE, EXP, RELAX,
      HYPER, HYPER_SINE] at hb ⊢
    norm_num at hb ⊢
    exact blockState_run_int_tri lp b hb
  all_goals by_cases h7 : lp.lfo_type = HYPER_SINE
  case pos =>
    simp only [h0, h1, h2, h3, h4, h5, h6, h7, INT_TRI, TRI, SINE, SQUARE, EXP, RELAX,
      HYPER, HYPER_SINE] at hb ⊢
    norm_num at hb ⊢
    exact blockState_run_sine lp b hb
  case neg =>
    simp only [h0, h1, h2, h3, h4, h5, h6, h7, if_false] at hb ⊢
    exact blockState_run_int_tri lp b hb

theorem lfoStep_lfo_type (lp : lfoparams) : (lfoStep lp).lfo_type = lp.lfo_type := by
  unfold lfoStep run_lfo
  split_ifs <;>
    first
      | rfl
      | (simp only [run_integrated_triangle_lfo]
         split_ifs <;> rfl)

/-- C3 (amended): one `run_lfo` call mutates only the state block backing
the selected type — the SQUARE and HYPER_SINE arms advance the sine block,
the HYPER arm and unknown types advance the integrated-triangle block —
and every other block is unchanged; consequently switching to a type backed
by a different block, stepping any number of times, and switching back
leaves the previously selected variant's state exactly as it was. -/
theorem C3_only_backing_block_advances (lp : lfoparams) : C3Statement lp := by
  constructor
  · exact fun b hb => blockState_lfoStep lp b hb
  · intro t n ht
    have key : ∀ m (q : lfoparams), q.lfo_type = t →
        blockState (backing lp.lfo_type) (lfoStep^[m] q) =
          blockState (backing lp.lfo_type) q := by
      intro m
      induction m with
      | zero => intro q _; rfl
      | succ m ih =>
        intro q hq
        rw [Function.iterate_succ_apply]
        have h1 : blockState (backing lp.lfo_type) (lfoStep^[m] (lfoStep q)) =
            blockState (backing lp.lfo_type) (lfoStep q) := by
          apply ih
          rw [lfoStep_lfo_type, hq]
        rw [h1]
        apply blockState_lfoStep
        rw [hq]
        exact ht.symm
    have h2 : blockState (backing lp.lfo_type) (lfoStep^[n] (set_lfo_type lp t)) =
        blockState (backing lp.lfo_type) (set_lfo_type lp t) := key n _ rfl
    have h3 : ∀ q : lfoparams, ∀ u : ℕ,
        blockState (backing lp.lfo_type) (set_lfo_type q u) =
          blockState (backing lp.lfo_type) q := by
      intro q u
      cases hb : backing lp.lfo_type <;> rfl
    rw [h3, h2, h3]

/-- C3 counterexample: with the sine variant selected, switching to SQUARE
(`set_lfo_type`), stepping once (`run_lfo`), and switching back changes the
sine variant's state (`run_lfo`'s SQUARE arm advances the sine recurrence),
refuting the claim as stated. -/
theorem C3_counterexample :
    lfoEx.lfo_type = SINE ∧
    blockState .sine (set_lfo_type (lfoStep (set_lfo_type lfoEx SQUARE)) SINE) ≠
      blockState .sine lfoEx := by
  constructor
  · rfl
  · simp only [lfoEx, init_lfo, set_lfo_type, lfoStep, run_lfo, run_sine_lfo,
      blockState, softClip, INT_TRI, TRI, SINE, SQUARE, EXP, RELAX, HYPER, HYPER_SINE]
    norm_num [M_PI_Q]

/-! ### Claim C8: output bounds of the LFO variants -/

theorem run_lfo_eq_int_tri (lp : lfoparams) (h : lp.lfo_type = INT_TRI) :
    run_lfo lp = run_integrated_triangle_lfo lp := by
  unfold run_lfo
  rw [h]
  rw [if_pos rfl]

theorem run_lfo_eq_tri (lp : lfoparams) (h : lp.lfo_type = TRI) :
    run_lfo lp = run_triangle_lfo lp := by
  unfold run_lfo
  rw [h]
  norm_num [INT_TRI, TRI]

theorem run_lfo_eq_sine (lp : lfoparams) (h : lp.lfo_type = SINE) :
    run_lfo lp = run_sine_lfo lp := by
  unfold run_lfo
  rw [h]
  norm_num [INT_TRI, TRI, SINE]

theorem run_lfo_eq_exp (lp : lfoparams) (h : lp.lfo_type = EXP) :
    run_lfo lp = run_exp_lfo lp := by
  unfold run_lfo
  rw [h]
  norm_num [INT_TRI, TRI, SINE, SQUARE, EXP]

theorem run_lfo_eq_rlx (lp : lfoparams) (h : lp.lfo_type = RELAX) :
    run_lfo lp = run_rlx_lfo lp := by
  unfold run_lfo
  rw [h]
  norm_num [INT_TRI, TRI, SINE, SQUARE, EXP, RELAX]

theorem lfoStep_iter_type (lp : lfoparams) (n : ℕ) :
    (lfoStep^[n] lp).lfo_type = lp.lfo_type := by
  induction n with
  | zero => rfl
  | succ n ih => rw [Function.iterate_succ_apply', lfoStep_lfo_type, ih]

/-- The integrated-triangle output is clamped into `[0, 1]` from any
state. -/
theorem run_int_tri_out_bounds (lp : lfoparams) :
    0 ≤ (run_integrated_triangle_lfo lp).1 ∧
      (run_integrated_triangle_lfo lp).1 ≤ 1 := by
  unfold run_integrated_triangle_lfo
  by_cases h0 : lp.startup_delay > 0
  · rw [if_pos h0]
    norm_num
  · rw [if_neg h0]
    dsimp only
    split_ifs <;> constructor <;> linarith

theorem triInv_step (lp : lfoparams) (hk : 0 ≤ lp.ktri) (h : triInv lp) :
    triInv (run_triangle_lfo lp).2 := by
  obtain ⟨hs, hlo, hhi, hpos, hneg⟩ := h
  have hns : ¬ lp.trilfo < 0 ∨ ¬ 1 < lp.trilfo := by
    by_contra hc
    push_neg at hc
    linarith [hc.1, hc.2]
  unfold run_triangle_lfo triInv
  dsimp only
  rcases hs with hs | hs <;> rw [hs]
  · have ht1 : lp.trilfo ≤ 1 := by
      by_contra hgt
      push_neg at hgt
      rw [hpos hgt] at hs
      norm_num at hs
    refine ⟨?_, by linarith, by linarith, ?_, ?_⟩
    · split_ifs <;> norm_num
    · intro hgt
      split_ifs with hc1 hc2
      · linarith
      · rfl
      · exact absurd (le_of_lt (by linarith : (1:ℚ) < lp.trilfo + lp.ktri * 1)) hc2
    · intro hlt
      split_ifs with hc1 hc2
      · rfl
      · linarith
      · linarith
  · have ht0 : 0 ≤ lp.trilfo := by
      by_contra hlt
      push_neg at hlt
      rw [hneg hlt] at hs
      norm_num at hs
    refine ⟨?_, by linarith, by linarith, ?_, ?_⟩
    · split_ifs <;> norm_num
    · intro hgt
      split_ifs with hc1 hc2
      · linarith
      · rfl
      · exact absurd (le_of_lt (by linarith : (1:ℚ) < lp.trilfo + lp.ktri * -1)) hc2
    · intro hlt
      split_ifs with hc1 hc2
      · rfl
      · linarith
      · linarith

theorem tri_iter (lp : lfoparams) (hty : lp.lfo_type = TRI) (hk : 0 ≤ lp.ktri)
    (h : triInv lp) (n : ℕ) :
    (lfoStep^[n] lp).lfo_type = TRI ∧ (lfoStep^[n] lp).ktri = lp.ktri ∧
      triInv (lfoStep^[n] lp) := by
  induction n with
  | zero => exact ⟨hty, rfl, h⟩
  | succ n ih =>
    obtain ⟨ih1, ih2, ih3⟩ := ih
    rw [Function.iterate_succ_apply']
    have hstep : lfoStep (lfoStep^[n] lp) = (run_triangle_lfo (lfoStep^[n] lp)).2 :=
      congrArg Prod.snd (run_lfo_eq_tri _ ih1)
    rw [hstep]
    refine ⟨ih1, ih2, ?_⟩
    exact triInv_step _ (by rw [ih2]; exact hk) ih3

/-- Triangle output bound at any step of an iterated run. -/
theorem tri_out_bounds (lp : lfoparams) (hty : lp.lfo_type = TRI)
    (hk : 0 ≤ lp.ktri) (h : triInv lp) (n : ℕ) :
    -lp.ktri ≤ (run_lfo (lfoStep^[n] lp)).1 ∧
      (run_lfo (lfoStep^[n] lp)).1 ≤ 1 + lp.ktri := by
  obtain ⟨h1, h2, h3⟩ := tri_iter lp hty hk h n
  rw [run_lfo_eq_tri _ h1]
  have hnext := triInv_step (lfoStep^[n] lp) (by rw [h2]; exact hk) h3
  obtain ⟨-, hlo, hhi, -, -⟩ := hnext
  have hktri : (run_triangle_lfo (lfoStep^[n] lp)).2.ktri = lp.ktri := h2
  have hout : (run_triangle_lfo (lfoStep^[n] lp)).1 =
      (run_triangle_lfo (lfoStep^[n] lp)).2.trilfo := rfl
  rw [hout]
  rw [hktri] at hlo hhi
  exact ⟨hlo, hhi⟩

theorem sineH_step (lp : lfoparams) : sineH (run_sine_lfo lp).2 = sineH lp := by
  unfold run_sine_lfo sineH
  dsimp only
  ring

theorem cos_sq_le_sineH (lp : lfoparams) :
    lp.cos_part ^ 2 * (1 - lp.ksin ^ 2 / 4) ≤ sineH lp := by
  unfold sineH
  nlinarith [sq_nonneg (lp.sin_part + lp.ksin * lp.cos_part / 2)]

theorem sine_iter (lp : lfoparams) (hty : lp.lfo_type = SINE) (n : ℕ) :
    (lfoStep^[n] lp).lfo_type = SINE ∧ (lfoStep^[n] lp).ksin = lp.ksin ∧
      sineH (lfoStep^[n] lp) = sineH lp := by
  induction n with
  | zero => exact ⟨hty, rfl, rfl⟩
  | succ n ih =>
    obtain ⟨ih1, ih2, ih3⟩ := ih
    rw [Function.iterate_succ_apply']
    have hstep : lfoStep (lfoStep^[n] lp) = (run_sine_lfo (lfoStep^[n] lp)).2 :=
      congrArg Prod.snd (run_lfo_eq_sine _ ih1)
    rw [hstep]
    exact ⟨ih1, ih2, by rw [sineH_step]; exact ih3⟩

/-- Sine output bound at any step of an iterated run: the conserved
quadratic form confines `2·out − 1` (the advanced `cos_part`) to the
initial ellipse. -/
theorem sine_out_bound (lp : lfoparams) (hty : lp.lfo_type = SINE) (n : ℕ) :
    (2 * (run_lfo (lfoStep^[n] lp)).1 - 1) ^ 2 * (1 - lp.ksin ^ 2 / 4) ≤
      sineH lp := by
  obtain ⟨h1, h2, h3⟩ := sine_iter lp hty n
  rw [run_lfo_eq_sine _ h1]
  have hout : (run_sine_lfo (lfoStep^[n] lp)).1 =
      1 / 2 * (1 + (run_sine_lfo (lfoStep^[n] lp)).2.cos_part) := rfl
  rw [hout]
  have hc : 2 * (1 / 2 * (1 + (run_sine_lfo (lfoStep^[n] lp)).2.cos_part)) - 1 =
      (run_sine_lfo (lfoStep^[n] lp)).2.cos_part := by ring
  rw [hc]
  have hk : (run_sine_lfo (lfoStep^[n] lp)).2.ksin = lp.ksin := h2
  have hH : sineH (run_sine_lfo (lfoStep^[n] lp)).2 = sineH lp := by
    rw [sineH_step]
    exact h3
  have hb := cos_sq_le_sineH (run_sine_lfo (lfoStep^[n] lp)).2
  rw [hk, hH] at hb
  exact hb

theorem expInv_step (lp : lfoparams) (hc : expCoeffOK lp) (h : expInv lp) :
    expInv (run_exp_lfo lp).2 := by
  obtain ⟨hik0, hik1, hkK, hm0, hmM⟩ := hc
  obtain ⟨hx, hlo, hhi, ht1, ht2⟩ := h
  have hKik : lp.exp_k * lp.exp_ik = 1 := by
    rw [hkK]
    field_simp
  have hK1 : 1 ≤ lp.exp_k := by nlinarith
  have hsv0 : 0 < lp.exp_sv := lt_of_lt_of_le (mul_pos hik0 hm0) hlo
  have hkeq1 : lp.exp_k = lp.exp_ik → lp.exp_ik = 1 := by
    intro he
    nlinarith
  unfold run_exp_lfo expInv
  dsimp only
  refine ⟨?_, ?_, ?_, ?_, ?_⟩
  · split_ifs
    · exact Or.inr rfl
    · exact Or.inl rfl
    · exact hx
  · rcases hx with hx | hx <;> rw [hx]
    · nlinarith [mul_nonneg (le_of_lt hsv0) (sub_nonneg.mpr hK1)]
    · by_cases hsm : lp.exp_sv < lp.exp_min
      · have heq : lp.exp_k = lp.exp_ik := by rw [← ht2 hsm, hx]
        have h1 : lp.exp_ik = 1 := hkeq1 heq
        rw [h1] at hlo ⊢
        linarith
      · have hms : lp.exp_min ≤ lp.exp_sv := not_lt.mp hsm
        nlinarith [mul_le_mul_of_nonneg_right hms (le_of_lt hik0)]
  · rcases hx with hx | hx <;> rw [hx]
    · by_cases hMs : lp.exp_max < lp.exp_sv
      · have heq : lp.exp_k = lp.exp_ik := by rw [← ht1 hMs, hx]
        have h1 : lp.exp_ik = 1 := hkeq1 heq
        have hKeq : lp.exp_k = 1 := by
          rw [h1] at hKik
          linarith
        rw [hKeq] at hhi ⊢
        linarith
      · have hsM : lp.exp_sv ≤ lp.exp_max := not_lt.mp hMs
        nlinarith [mul_le_mul_of_nonneg_right hsM (by linarith : (0 : ℚ) ≤ lp.exp_k)]
    · nlinarith [mul_le_mul_of_nonneg_left hik1 (le_of_lt hsv0)]
  · intro hgt
    split_ifs with hc1 hc2
    · rfl
    · linarith
    · linarith
  · intro hlt
    split_ifs with hc1 hc2
    · linarith
    · rfl
    · linarith

theorem exp_iter (lp : lfoparams) (hty : lp.lfo_type = EXP) (hc : expCoeffOK lp)
    (h : expInv lp) (n : ℕ) :
    (lfoStep^[n] lp).lfo_type = EXP ∧ expCoeffOK (lfoStep^[n] lp) ∧
      expInv (lfoStep^[n] lp) ∧
      (lfoStep^[n] lp).exp_ik = lp.exp_ik ∧ (lfoStep^[n] lp).exp_k = lp.exp_k ∧
      (lfoStep^[n] lp).exp_min = lp.exp_min ∧
      (lfoStep^[n] lp).exp_max = lp.exp_max := by
  induction n with
  | zero => exact ⟨hty, hc, h, rfl, rfl, rfl, rfl⟩
  | succ n ih =>
    obtain ⟨ih1, ih2, ih3, ih4, ih5, ih6, ih7⟩ := ih
    rw [Function.iterate_succ_apply']
    have hstep : lfoStep (lfoStep^[n] lp) = (run_exp_lfo (lfoStep^[n] lp)).2 :=
      congrArg Prod.snd (run_lfo_eq_exp _ ih1)
    rw [hstep]
    exact ⟨ih1, ih2, expInv_step _ ih2 ih3, ih4, ih5, ih6, ih7⟩

/-- Exponential output bound at any step of an iterated run. -/
theorem exp_out_bounds (lp : lfoparams) (hty : lp.lfo_type = EXP)
    (hc : expCoeffOK lp) (h : expInv lp) (n : ℕ) :
    lp.exp_ik * lp.exp_min - lp.exp_min ≤ (run_lfo (lfoStep^[n] lp)).1 ∧
      (run_lfo (lfoStep^[n] lp)).1 ≤ lp.exp_max * lp.exp_k - lp.exp_min := by
  obtain ⟨h1, h2, h3, h4, h5, h6, h7⟩ := exp_iter lp hty hc h n
  rw [run_lfo_eq_exp _ h1]
  have hnext := expInv_step (lfoStep^[n] lp) h2 h3
  obtain ⟨-, hlo, hhi, -, -⟩ := hnext
  have hout : (run_exp_lfo (lfoStep^[n] lp)).1 =
      (run_exp_lfo (lfoStep^[n] lp)).2.exp_sv - (lfoStep^[n] lp).exp_min := rfl
  rw [hout, h6]
  have hlo' : (lfoStep^[n] lp).exp_ik * (lfoStep^[n] lp).exp_min ≤
      (run_exp_lfo (lfoStep^[n] lp)).2.exp_sv := hlo
  have hhi' : (run_exp_lfo (lfoStep^[n] lp)).2.exp_sv ≤
      (lfoStep^[n] lp).exp_max * (lfoStep^[n] lp).exp_k := hhi
  rw [h4, h6] at hlo'
  rw [h7, h5] at hhi'
  constructor <;> linarith

theorem rlxInv_step (lp : lfoparams) (hc : rlxCoeffOK lp) (h : rlxInv lp) :
    rlxInv (run_rlx_lfo lp).2 := by
  obtain ⟨hM1, hmeq, hk0, hk1, hik⟩ := hc
  obtain ⟨hs, hlo, hhi, ht1, ht2⟩ := h
  have hMne : lp.rlx_max ≠ lp.rlx_min := by
    rw [hmeq]
    intro he
    linarith
  rw [hmeq] at hlo
  unfold run_rlx_lfo rlxInv
  dsimp only
  rw [hik, hmeq]
  have hbounds : 1 - lp.rlx_max ≤ lp.rlx_sign * (1 - lp.rlx_k) + lp.rlx_k * lp.rlx_lfo ∧
      lp.rlx_sign * (1 - lp.rlx_k) + lp.rlx_k * lp.rlx_lfo ≤ lp.rlx_max := by
    rcases hs with hs | hs
    · have hr1 : lp.rlx_lfo ≤ 1 := by
        by_contra hgt
        push_neg at hgt
        exact hMne (hs.symm.trans (ht1 hgt))
      rw [hs]
      constructor
      · nlinarith [mul_nonneg hk0 (by linarith : (0 : ℚ) ≤ lp.rlx_lfo - (1 - lp.rlx_max)),
          mul_nonneg (by linarith : (0 : ℚ) ≤ 2 * lp.rlx_max - 1)
            (by linarith : (0 : ℚ) ≤ 1 - lp.rlx_k)]
      · nlinarith [mul_nonneg hk0 (by linarith : (0 : ℚ) ≤ lp.rlx_max - lp.rlx_lfo)]
    · have hr0 : 0 ≤ lp.rlx_lfo := by
        by_contra hlt
        push_neg at hlt
        exact hMne ((ht2 hlt).symm.trans hs)
      rw [hs, hmeq]
      constructor
      · nlinarith [mul_nonneg hk0 (by linarith : (0 : ℚ) ≤ lp.rlx_lfo - (1 - lp.rlx_max))]
      · nlinarith [mul_nonneg hk0 (by linarith : (0 : ℚ) ≤ lp.rlx_max - lp.rlx_lfo),
          mul_nonneg (by linarith : (0 : ℚ) ≤ 2 * lp.rlx_max - 1)
            (by linarith : (0 : ℚ) ≤ 1 - lp.rlx_k)]
  refine ⟨?_, hbounds.1, hbounds.2, ?_, ?_⟩
  · split_ifs
    · exact Or.inr rfl
    · exact Or.inl rfl
    · rw [← hmeq]
      exact hs
  · intro hgt
    split_ifs with hc1 hc2
    · rfl
    · linarith
    · linarith
  · intro hlt
    split_ifs with hc1 hc2
    · linarith
    · rfl
    · linarith

theorem rlx_iter (lp : lfoparams) (hty : lp.lfo_type = RELAX) (hc : rlxCoeffOK lp)
    (h : rlxInv lp) (n : ℕ) :
    (lfoStep^[n] lp).lfo_type = RELAX ∧ rlxCoeffOK (lfoStep^[n] lp) ∧
      rlxInv (lfoStep^[n] lp) ∧
      (lfoStep^[n] lp).rlx_min = lp.rlx_min ∧
      (lfoStep^[n] lp).rlx_max = lp.rlx_max := by
  induction n with
  | zero => exact ⟨hty, hc, h, rfl, rfl⟩
  | succ n ih =>
    obtain ⟨ih1, ih2, ih3, ih4, ih5⟩ := ih
    rw [Function.iterate_succ_apply']
    have hstep : lfoStep (lfoStep^[n] lp) = (run_rlx_lfo (lfoStep^[n] lp)).2 :=
      congrArg Prod.snd (run_lfo_eq_rlx _ ih1)
    rw [hstep]
    exact ⟨ih1, ih2, rlxInv_step _ ih2 ih3, ih4, ih5⟩

/-- Relaxation output bound at any step of an iterated run. -/
theorem rlx_out_bounds (lp : lfoparams) (hty : lp.lfo_type = RELAX)
    (hc : rlxCoeffOK lp) (h : rlxInv lp) (n : ℕ) :
    lp.rlx_min ≤ (run_lfo (lfoStep^[n] lp)).1 ∧
      (run_lfo (lfoStep^[n] lp)).1 ≤ lp.rlx_max := by
  obtain ⟨h1, h2, h3, h4, h5⟩ := rlx_iter lp hty hc h n
  rw [run_lfo_eq_rlx _ h1]
  have hnext := rlxInv_step (lfoStep^[n] lp) h2 h3
  obtain ⟨-, hlo, hhi, -, -⟩ := hnext
  have hout : (run_rlx_lfo (lfoStep^[n] lp)).1 =
      (run_rlx_lfo (lfoStep^[n] lp)).2.rlx_lfo := rfl
  rw [hout]
  have hlo' : (lfoStep^[n] lp).rlx_min ≤ (run_rlx_lfo (lfoStep^[n] lp)).2.rlx_lfo := hlo
  have hhi' : (run_rlx_lfo (lfoStep^[n] lp)).2.rlx_lfo ≤ (lfoStep^[n] lp).rlx_max := hhi
  rw [h4] at hlo'
  rw [h5] at hhi'
  exact ⟨hlo', hhi'⟩

theorem tri_init_facts (fosc fs phase sinv cosv kRlx kExp : ℚ)
    (hfosc : 0 < fosc) (hfs : 0 < fs) (hph0 : 0 ≤ phase) (hph1 : phase ≤ 360) :
    0 ≤ (init_lfo fosc fs phase sinv cosv kRlx kExp).ktri ∧
      triInv (init_lfo fosc fs phase sinv cosv kRlx kExp) := by
  have hk : (0 : ℚ) ≤ 2 * fosc / fs := by positivity
  have hP : 2 * fosc * phase / (360 * fosc) = phase / 180 := by
    rw [div_eq_div_iff (by positivity) (by norm_num)]
    ring
  have hp0 : (0 : ℚ) ≤ phase / 180 := by positivity
  have hp2 : phase / 180 ≤ 2 := by
    rw [div_le_iff₀ (by norm_num : (0 : ℚ) < 180)]
    linarith
  constructor
  · exact hk
  · unfold init_lfo triInv
    dsimp only
    rw [hP]
    refine ⟨?_, ?_, ?_, ?_, ?_⟩ <;> split_ifs <;>
      first
        | linarith
        | (left ; rfl)
        | (right ; rfl)
        | (intro h; exfalso; linarith)

theorem exp_init_facts (fosc fs phase sinv cosv kRlx kExp : ℚ)
    (hke0 : 0 < kExp) (hke1 : kExp ≤ 1) :
    expCoeffOK (init_lfo fosc fs phase sinv cosv kRlx kExp) ∧
      expInv (init_lfo fosc fs phase sinv cosv kRlx kExp) := by
  have hm : (0 : ℚ) < 1 / M_E_Q := by norm_num [M_E_Q]
  have hK : 1 / kExp * kExp = 1 := by field_simp
  have hK1 : 1 ≤ 1 / kExp := by nlinarith
  unfold init_lfo expCoeffOK expInv
  dsimp only
  refine ⟨⟨hke0, hke1, rfl, hm, by linarith⟩, Or.inr rfl, ?_, ?_, ?_, ?_⟩
  · nlinarith
  · nlinarith [mul_le_mul_of_nonneg_left hK1 (by linarith : (0 : ℚ) ≤ 1 + 1 / M_E_Q)]
  · intro hgt
    exfalso
    linarith
  · intro hlt
    exact absurd hlt (lt_irrefl _)

theorem rlx_init_facts (fosc fs phase sinv cosv kRlx kExp : ℚ)
    (hkr0 : 0 ≤ kRlx) (hkr1 : kRlx ≤ 1) :
    rlxCoeffOK (init_lfo fosc fs phase sinv cosv kRlx kExp) ∧
      rlxInv (init_lfo fosc fs phase sinv cosv kRlx kExp) := by
  have hie : (1 : ℚ) ≤ 1 / (1 - 1 / M_E_Q) := by norm_num [M_E_Q]
  unfold init_lfo rlxCoeffOK rlxInv
  dsimp only
  refine ⟨⟨hie, rfl, hkr0, hkr1, rfl⟩, Or.inl rfl, by linarith, by linarith, ?_, ?_⟩
  · intro h
    exfalso
    linarith
  · intro h
    exfalso
    linarith

/-- C8 (amended): at every step of a run from initialisation (positive
frequency and sample rate, phase within `[0°, 360°]`, libm stub values in
their mathematical ranges), the integrated-triangle output always lies in
`[0, 1]` — it is the only variant guaranteed never to leave that range —
while the others are bounded but may overshoot: the triangle output lies in
`[-ktri, 1 + ktri]`, the sine output satisfies the conserved-ellipse bound
`(2·out − 1)²(1 − ksin²/4) ≤ sin₀² + cos₀² + ksin·sin₀·cos₀`, the
exponential output lies in `[exp_ik·exp_min − exp_min,
exp_max·exp_k − exp_min]`, and the relaxation output lies in
`[rlx_min, rlx_max] ≈ [-0.582, 1.582]`. -/
theorem C8_variant_output_bounds (fosc fs phase sinv cosv kRlx kExp : ℚ) (n : ℕ)
    (hfosc : 0 < fosc) (hfs : 0 < fs) (hph0 : 0 ≤ phase) (hph1 : phase ≤ 360)
    (hkr0 : 0 ≤ kRlx) (hkr1 : kRlx ≤ 1) (hke0 : 0 < kExp) (hke1 : kExp ≤ 1) :
    C8Statement fosc fs phase sinv cosv kRlx kExp n := by
  obtain ⟨htk, htinv⟩ := tri_init_facts fosc fs phase sinv cosv kRlx kExp hfosc hfs hph0 hph1
  obtain ⟨hec, hei⟩ := exp_init_facts fosc fs phase sinv cosv kRlx kExp hke0 hke1
  obtain ⟨hrc, hri⟩ := rlx_init_facts fosc fs phase sinv cosv kRlx kExp hkr0 hkr1
  unfold C8Statement
  dsimp only
  refine ⟨?_, ?_, ?_, ?_, ?_⟩
  · have h1 : (lfoStep^[n] (set_lfo_type (init_lfo fosc fs phase sinv cosv kRlx kExp)
        INT_TRI)).lfo_type = INT_TRI := by
      rw [lfoStep_iter_type]
      rfl
    rw [run_lfo_eq_int_tri _ h1]
    exact run_int_tri_out_bounds _
  · exact tri_out_bounds
      (set_lfo_type (init_lfo fosc fs phase sinv cosv kRlx kExp) TRI) rfl htk htinv n
  · exact sine_out_bound
      (set_lfo_type (init_lfo fosc fs phase sinv cosv kRlx kExp) SINE) rfl n
  · exact exp_out_bounds
      (set_lfo_type (init_lfo fosc fs phase sinv cosv kRlx kExp) EXP) rfl hec hei n
  · exact rlx_out_bounds
      (set_lfo_type (init_lfo fosc fs phase sinv cosv kRlx kExp) RELAX) rfl hrc hri n

/-- Witness for the amended C8 at concrete parameters and step count. -/
theorem C8_variant_output_bounds_witness :
    ((0 : ℚ) < 1 ∧ (0 : ℚ) < 2 ∧ (0 : ℚ) ≤ 0 ∧ (0 : ℚ) ≤ 360 ∧
      (0 : ℚ) ≤ 1 / 2 ∧ (1 / 2 : ℚ) ≤ 1) ∧
      C8Statement 1 2 0 0 1 (1 / 2) (1 / 2) 2 :=
  ⟨by norm_num,
    C8_variant_output_bounds 1 2 0 0 1 (1 / 2) (1 / 2) 2 (by norm_num) (by norm_num)
      (by norm_num) (by norm_num) (by norm_num) (by norm_num) (by norm_num) (by norm_num)⟩

/-- C8 counterexample: the claim says the triangle variant never returns a
value outside `[0, 1]`; from `init_lfo(fosc = 1, fs = 3, phase = 0)` the
second triangle step returns `4/3`, overshooting the upper bound before the
direction flips. -/
theorem C8_counterexample :
    1 < (run_lfo (lfoStep (set_lfo_type (init_lfo 1 3 0 0 1 (1 / 2) (1 / 2)) TRI))).1 := by
  norm_num [lfoStep, run_lfo, run_triangle_lfo, set_lfo_type, init_lfo, INT_TRI, TRI,
    SINE, SQUARE, EXP, RELAX, HYPER, HYPER_SINE, M_PI_Q, M_E_Q]

/-! ### Claim C9: the SQUARE arm -/

/-- C9: with SQUARE selected, `run_lfo` advances the sine recurrence, feeds
half the advanced raw `cos_part` (the sine output with its `[0, 1]` remap
offset removed) through the rational soft-saturation curve, and rescales by
16 and offsets by 1/2; the state effect is exactly that of the sine
step. -/
theorem C9_square_soft_clips_raw_sine (lp : lfoparams) (h : lp.lfo_type = SQUARE) :
    (run_lfo lp).1 = softClip ((run_sine_lfo lp).2.cos_part / 2) * 16 + 1 / 2 ∧
    (run_lfo lp).2 = (run_sine_lfo lp).2 := by
  have h0 : ¬ SQUARE = INT_TRI := by norm_num [SQUARE, INT_TRI]
  have h1 : ¬ SQUARE = TRI := by norm_num [SQUARE, TRI]
  have h2 : ¬ SQUARE = SINE := by norm_num [SQUARE, SINE]
  have hdis : run_lfo lp =
      (softClip ((run_sine_lfo lp).1 - 1 / 2) * 16 + 1 / 2, (run_sine_lfo lp).2) := by
    unfold run_lfo
    rw [h, if_neg h0, if_neg h1, if_neg h2, if_pos rfl]
  rw [hdis]
  have hc : (run_sine_lfo lp).1 - 1 / 2 = (run_sine_lfo lp).2.cos_part / 2 := by
    have hr : (run_sine_lfo lp).1 = 1 / 2 * (1 + (run_sine_lfo lp).2.cos_part) := rfl
    rw [hr]
    ring
  rw [hc]
  exact ⟨rfl, rfl⟩

/-- Witness for C9 at a concrete state. -/
theorem C9_square_soft_clips_raw_sine_witness :
    (set_lfo_type (init_lfo 1 3 0 0 1 (1 / 2) (1 / 2)) SQUARE).lfo_type = SQUARE ∧
    ((run_lfo (set_lfo_type (init_lfo 1 3 0 0 1 (1 / 2) (1 / 2)) SQUARE)).1 =
        softClip ((run_sine_lfo (set_lfo_type (init_lfo 1 3 0 0 1 (1 / 2) (1 / 2))
          SQUARE)).2.cos_part / 2) * 16 + 1 / 2 ∧
      (run_lfo (set_lfo_type (init_lfo 1 3 0 0 1 (1 / 2) (1 / 2)) SQUARE)).2 =
        (run_sine_lfo (set_lfo_type (init_lfo 1 3 0 0 1 (1 / 2) (1 / 2)) SQUARE)).2) :=
  ⟨rfl, C9_square_soft_clips_raw_sine _ rfl⟩

/-! ### Claim C5: the clear control clears exactly once per press -/

/-- C5: a press-and-hold of the clear control from a released, un-guarded
state zeroes the looper buffer and resets both cursors exactly once; while
the control stays held nothing changes further (the guard stays set and no
second clear fires); the guard is reset exactly when the control is
observed released; and a new press clears again. -/
theorem C5_clear_exactly_once (s : RenderState) (i : ℚ)
    (h1 : s.gClearedOnce = false) (h2 : s.localLastClearButtonState = 0) :
    C5Statement s i := by
  unfold C5Statement renderStepSt renderStep toggleBranch clearBranch recordBranch playBranch
  simp [h1, h2]

/-- Witness for C5 at a concrete state and input. -/
theorem C5_clear_exactly_once_witness :
    (renderStateEx.gClearedOnce = false ∧ renderStateEx.localLastClearButtonState = 0) ∧
      C5Statement renderStateEx 1 :=
  ⟨⟨rfl, rfl⟩, C5_clear_exactly_once renderStateEx 1 rfl rfl⟩

/-! ### Claim C6: playback read-cursor normalization -/

/-- C6: for any playback speed in `[-2, 2]` and read cursor in
`[0, capacity)` (capacity at least 2; the program's looper capacity is
882000), the playback branch returns `buffer[⌊readIndex⌋ mod capacity]`,
advances the read cursor by the speed and re-normalizes it into
`[0, capacity)` by adding or subtracting the capacity, and the recording
write cursor advances by exactly 1 modulo capacity. -/
theorem C6_playback_read (s : RenderState) (hplay : s.gPlaying = true)
    (hsp1 : -2 ≤ s.gPlaybackSpeed) (hsp2 : s.gPlaybackSpeed ≤ 2)
    (hr0 : 0 ≤ s.readIndex) (hr1 : s.readIndex < (s.gBufferSize : ℚ))
    (hcap : 2 ≤ s.gBufferSize) : C6Statement s := by
  have hcapQ : (2 : ℚ) ≤ (s.gBufferSize : ℚ) := by exact_mod_cast hcap
  have hfl0 : 0 ≤ ⌊s.readIndex⌋ := Int.floor_nonneg.mpr hr0
  have hflcap : ⌊s.readIndex⌋ < (s.gBufferSize : ℤ) := by
    rw [Int.floor_lt]
    exact_mod_cast hr1
  have htr : truncQ s.readIndex = ⌊s.readIndex⌋ := if_pos hr0
  have hmod : ⌊s.readIndex⌋ % (s.gBufferSize : ℤ) = ⌊s.readIndex⌋ :=
    Int.emod_eq_of_lt hfl0 hflcap
  have htn : (⌊s.readIndex⌋).toNat < s.gBufferSize := by omega
  unfold C6Statement playBranch
  rw [hplay]
  simp only [if_true]
  refine ⟨?_, ?_, ?_, ?_, fun x => rfl⟩
  · rw [htr, hmod, Nat.mod_eq_of_lt htn]
  · dsimp only
    split_ifs <;> linarith
  · dsimp only
    split_ifs <;> linarith
  · dsimp only
    split_ifs with hc1 hc2
    · right
      left
      rfl
    · right
      right
      rfl
    · left
      rfl

/-- Witness for C6 at a concrete state. -/
theorem C6_playback_read_witness :
    (renderStateEx.gPlaying = true ∧ -2 ≤ renderStateEx.gPlaybackSpeed ∧
      renderStateEx.gPlaybackSpeed ≤ 2 ∧ 0 ≤ renderStateEx.readIndex ∧
      renderStateEx.readIndex < (renderStateEx.gBufferSize : ℚ) ∧
      2 ≤ renderStateEx.gBufferSize) ∧
    C6Statement renderStateEx :=
  ⟨⟨rfl, by norm_num [renderStateEx], by norm_num [renderStateEx],
      by norm_num [renderStateEx], by norm_num [renderStateEx], by norm_num [renderStateEx]⟩,
    C6_playback_read renderStateEx rfl (by norm_num [renderStateEx])
      (by norm_num [renderStateEx]) (by norm_num [renderStateEx])
      (by norm_num [renderStateEx]) (by norm_num [renderStateEx])⟩

/-! ### Claim C7: additive overdub across a full wrap -/

/-- Folding `recordAdd` over inputs whose write positions all avoid slot
`q` leaves slot `q` untouched and advances the write cursor by the number
of inputs, modulo capacity. -/
theorem recordAdd_foldl_untouched (xs : List ℚ) : ∀ (t : RenderState) (q : ℕ),
    t.gWritePointer < t.gBufferSize →
    (∀ i, i < xs.length → (t.gWritePointer + i) % t.gBufferSize ≠ q) →
    (List.foldl recordAdd t xs).gAudioBuffer q = t.gAudioBuffer q ∧
    (List.foldl recordAdd t xs).gWritePointer =
      (t.gWritePointer + xs.length) % t.gBufferSize ∧
    (List.foldl recordAdd t xs).gBufferSize = t.gBufferSize := by
  induction xs with
  | nil =>
    intro t q hwp _
    exact ⟨rfl, by simp [Nat.mod_eq_of_lt hwp], rfl⟩
  | cons x xs ih =>
    intro t q hwp hcond
    have hcap : 0 < t.gBufferSize := lt_of_le_of_lt (Nat.zero_le _) hwp
    simp only [List.foldl_cons, List.length_cons]
    have hq0 : t.gWritePointer ≠ q := by
      have h := hcond 0 (by simp)
      rwa [Nat.add_zero, Nat.mod_eq_of_lt hwp] at h
    have hwp' : (recordAdd t x).gWritePointer < (recordAdd t x).gBufferSize := by
      show (t.gWritePointer + 1) % t.gBufferSize < t.gBufferSize
      exact Nat.mod_lt _ hcap
    have hcond' : ∀ i, i < xs.length →
        ((recordAdd t x).gWritePointer + i) % (recordAdd t x).gBufferSize ≠ q := by
      intro i hi
      show ((t.gWritePointer + 1) % t.gBufferSize + i) % t.gBufferSize ≠ q
      have hrw : ((t.gWritePointer + 1) % t.gBufferSize + i) % t.gBufferSize =
          (t.gWritePointer + (1 + i)) % t.gBufferSize := by
        rw [Nat.mod_add_mod, Nat.add_assoc]
      rw [hrw]
      refine hcond (1 + i) ?_
      simp only [List.length_cons]
      omega
    obtain ⟨ihb, ihw, ihc⟩ := ih (recordAdd t x) q hwp' hcond'
    refine ⟨?_, ?_, ihc⟩
    · rw [ihb]
      show Function.update t.gAudioBuffer t.gWritePointer _ q = t.gAudioBuffer q
      rw [Function.update_noteq (Ne.symm hq0)]
    · rw [ihw]
      show ((t.gWritePointer + 1) % t.gBufferSize + xs.length) % t.gBufferSize =
        (t.gWritePointer + (xs.length + 1)) % t.gBufferSize
      rw [Nat.mod_add_mod, Nat.add_assoc, Nat.add_comm 1 xs.length]

/-- C7: `recordAdd` adds `sample·0.75` into the slot at the write cursor
(additive, never overwriting) and advances the cursor by 1 modulo capacity;
hence `recordAdd c`, a full wrap of `capacity − 1` further writes, and a
second `recordAdd c` landing on the same (initially zero) slot leave
exactly `2·0.75·c` there. -/
theorem C7_recordAdd_overdub (s : RenderState) (c : ℚ) (xs : List ℚ)
    (hwp : s.gWritePointer < s.gBufferSize)
    (hlen : xs.length = s.gBufferSize - 1)
    (hzero : s.gAudioBuffer s.gWritePointer = 0) :
    C7Statement s c xs := by
  have hcap : 0 < s.gBufferSize := lt_of_le_of_lt (Nat.zero_le _) hwp
  constructor
  · intro t x
    constructor
    · show Function.update t.gAudioBuffer t.gWritePointer _ t.gWritePointer = _
      rw [Function.update_same]
    · rfl
  · have ht1wp : (recordAdd s c).gWritePointer = (s.gWritePointer + 1) % s.gBufferSize := rfl
    have ht1wplt : (recordAdd s c).gWritePointer < (recordAdd s c).gBufferSize := by
      rw [ht1wp]
      exact Nat.mod_lt _ hcap
    have hcond : ∀ i, i < xs.length →
        ((recordAdd s c).gWritePointer + i) % (recordAdd s c).gBufferSize ≠
          s.gWritePointer := by
      intro i hi heq
      have heq' : (s.gWritePointer + (1 + i)) % s.gBufferSize = s.gWritePointer := by
        have h2 : ((s.gWritePointer + 1) % s.gBufferSize + i) % s.gBufferSize =
            s.gWritePointer := heq
        rw [Nat.mod_add_mod, Nat.add_assoc] at h2
        exact h2
      have hmeq : (s.gWritePointer + (1 + i)) % s.gBufferSize =
          s.gWritePointer % s.gBufferSize := by
        rw [heq', Nat.mod_eq_of_lt hwp]
      have hdvd : (s.gBufferSize : ℤ) ∣ ((s.gWritePointer : ℤ) -
          ((s.gWritePointer : ℤ) + (1 + i))) := by
        have := (Nat.modEq_iff_dvd).mp (hmeq : Nat.ModEq s.gBufferSize _ _)
        exact_mod_cast this
      have hdvd' : (s.gBufferSize : ℤ) ∣ ((1 + i : ℕ) : ℤ) := by
        have h' : ((s.gWritePointer : ℤ) - ((s.gWritePointer : ℤ) + (1 + i))) =
            -(((1 + i : ℕ) : ℤ)) := by
          push_cast
          ring
        rw [h'] at hdvd
        exact (dvd_neg).mp hdvd
      have hle : (s.gBufferSize : ℤ) ≤ ((1 + i : ℕ) : ℤ) :=
        Int.le_of_dvd (by exact_mod_cast Nat.succ_le_of_lt (by omega)) hdvd'
      have : s.gBufferSize ≤ 1 + i := by exact_mod_cast hle
      omega
    obtain ⟨hb, hw, -⟩ :=
      recordAdd_foldl_untouched xs (recordAdd s c) s.gWritePointer ht1wplt hcond
    have hwfold : (List.foldl recordAdd (recordAdd s c) xs).gWritePointer =
        s.gWritePointer := by
      rw [hw, ht1wp]
      show ((s.gWritePointer + 1) % s.gBufferSize + xs.length) % s.gBufferSize = _
      rw [Nat.mod_add_mod]
      have hsum : s.gWritePointer + 1 + xs.length = s.gWritePointer + s.gBufferSize := by
        omega
      rw [hsum, Nat.add_mod_right, Nat.mod_eq_of_lt hwp]
    have hfinal : (recordAdd (List.foldl recordAdd (recordAdd s c) xs) c).gAudioBuffer
        s.gWritePointer =
        (List.foldl recordAdd (recordAdd s c) xs).gAudioBuffer s.gWritePointer +
          c * (3 / 4) := by
      show Function.update _ (List.foldl recordAdd (recordAdd s c) xs).gWritePointer _
        s.gWritePointer = _
      rw [hwfold, Function.update_same]
    have ht1b : (recordAdd s c).gAudioBuffer s.gWritePointer =
        s.gAudioBuffer s.gWritePointer + c * (3 / 4) := by
      show Function.update _ s.gWritePointer _ s.gWritePointer = _
      rw [Function.update_same]
    rw [hfinal, hb, ht1b, hzero]
    ring

/-- Witness for C7 at a concrete state (capacity 4, write cursor 1, three
intermediate writes to wrap). -/
theorem C7_recordAdd_overdub_witness :
    (renderStateEx.gWritePointer < renderStateEx.gBufferSize ∧
      ([0, 0, 0] : List ℚ).length = renderStateEx.gBufferSize - 1 ∧
      renderStateEx.gAudioBuffer renderStateEx.gWritePointer = 0) ∧
    C7Statement renderStateEx 1 [0, 0, 0] :=
  ⟨⟨by norm_num [renderStateEx], by norm_num [renderStateEx], rfl⟩,
    C7_recordAdd_overdub renderStateEx 1 [0, 0, 0] (by norm_num [renderStateEx])
      (by norm_num [renderStateEx]) rfl⟩

/-! ### Claim C10: further side effects of the clear branch -/

/-- C10: on an un-guarded rising edge of the clear control, the clear
branch — besides zeroing the looper buffer and resetting both cursors —
also sets the recording and playing flags to false and switches the
recording indicator (LED) off. -/
theorem C10_clear_stops_transport (s : RenderState)
    (h1 : s.gClearedOnce = false) (h2 : s.localLastClearButtonState = 0) :
    C10Statement s := by
  unfold C10Statement clearBranch
  simp [h1, h2]

/-- Witness for C10 at a concrete state. -/
theorem C10_clear_stops_transport_witness :
    (renderStateEx.gClearedOnce = false ∧ renderStateEx.localLastClearButtonState = 0) ∧
      C10Statement renderStateEx :=
  ⟨⟨rfl, rfl⟩, C10_clear_stops_transport renderStateEx rfl rfl⟩

end Loopy
